import Mathlib

set_option maxRecDepth 4000

/-!
Verification of the outline-extraction pipeline (src/outline_extractor.py)
against its natural-language specification.

The Python source is shallowly embedded.  Font sizes, indents and vertical
coordinates are rounded to 0.1pt by the extraction layer, so they are exact
multiples of 0.1 and are modelled as integers measured in tenths of a point
(the source's 4.0 and 2.0 threshold deltas become 40 and 20, the indent
bound 100 becomes 1000, a 12.5pt size becomes 125); this encoding is exact
and preserves every comparison the source makes.  Spans carry the stripped text, rounded size, bold flag,
left indent (bbox x0) and vertical coordinate (bbox y0).  The PDF parsing,
rasterization and OCR engines are external collaborators: a page carries the
text-layer string returned by page.get_text() and the string the OCR engine
would return for its rasterized image.
-/

namespace OutlineExtractor

/-- collapseRun b cs replaces every maximal run of whitespace in cs by a single
space, embedding re.sub of one-or-more whitespace with a space; b records
whether the previous character was part of a whitespace run. -/
def collapseRun : Bool → List Char → List Char
  | _, [] => []
  | prev, c :: cs =>
    if c.isWhitespace then
      if prev then collapseRun true cs else ' ' :: collapseRun true cs
    else c :: collapseRun false cs

/-- Embeds re.sub collapsing whitespace runs to single spaces. -/
def collapse_ws (s : String) : String := String.mk (collapseRun false s.data)

/-- Embeds str.strip: drop leading and trailing whitespace. -/
def sTrim (s : String) : String :=
  String.mk (((s.data.dropWhile Char.isWhitespace).reverse.dropWhile Char.isWhitespace).reverse)

/-- Embeds str.lower (ASCII-relevant part). -/
def sLower (s : String) : String := String.mk (s.data.map Char.toLower)

/-- The configured blacklist of boilerplate phrase prefixes (module constant
BLACKLIST of the source). -/
def BLACKLIST : List String :=
  ["table of contents", "acknowledgements", "revision history",
   "copyright notice", "version 1.0",
   "copyright © international software testing qualifications board"]

/-- Embeds is_boilerplate: normalize (strip, lower, collapse whitespace) and
test whether the result starts with any blacklisted phrase. -/
def is_boilerplate (text : String) : Bool :=
  let txt := collapse_ws (sLower (sTrim text))
  BLACKLIST.any (fun bl => bl.data.isPrefixOf txt.data)

/-- Counts maximal nonempty whitespace-separated words in a character list;
the flag records whether the previous character was inside a word. -/
def wordsCount : Bool → List Char → Nat
  | _, [] => 0
  | inWord, c :: cs =>
    if c.isWhitespace then wordsCount false cs
    else (if inWord then 0 else 1) + wordsCount true cs

/-- Embeds len(s.split()): number of maximal nonempty whitespace-separated
words. -/
def wordCount (s : String) : Nat := wordsCount false s.data

/-- Embeds s.split of a newline then taking index 0: the characters before
the first newline. -/
def firstLine (s : String) : String :=
  String.mk (s.data.takeWhile (fun c => !(c == '\n')))

/-- Consume a maximal run of leading decimal digits; return how many were
consumed and the rest. -/
def munchDigits : List Char → Nat × List Char
  | [] => (0, [])
  | c :: cs =>
    if c.isDigit then
      let r := munchDigits cs
      (r.1 + 1, r.2)
    else (0, c :: cs)

/-- Consume as many groups of a dot followed by one-or-more digits as
possible (the repeated group of the numbering regex); fuel-structured. -/
def countGroups : Nat → List Char → Nat × List Char
  | 0, l => (0, l)
  | Nat.succ fuel, l =>
    match l with
    | '.' :: rest =>
      let m := munchDigits rest
      if m.1 = 0 then (0, l)
      else
        let g := countGroups fuel m.2
        (g.1 + 1, g.2)
    | _ => (0, l)

/-- Embeds re.match of the anchored numbering pattern (digits, then
one-or-more groups of a dot and digits, then whitespace) returning the count
of dots of the matched numeral, none when there is no match.  The regex
admits no backtracking advantage here: shortening a digit run leaves a digit
as the next character, which can start neither a new group nor the trailing
whitespace, so the greedy parse is exact. -/
def numberingDepth (t : String) : Option Nat :=
  let d := munchDigits t.data
  if d.1 = 0 then none
  else
    let g := countGroups d.2.length d.2
    if g.1 = 0 then none
    else
      match g.2 with
      | c :: _ => if c.isWhitespace then some g.1 else none
      | [] => none

inductive Level where
  | H1
  | H2
  | H3
deriving DecidableEq

structure Span where
  text : String
  size : Int
  bold : Bool
  indent : Int
  y : Int
deriving DecidableEq

structure Page where
  spans : List Span
  textLayer : String
  ocrText : String
deriving DecidableEq

structure Doc where
  metadataTitle : String
  pages : List Page
deriving DecidableEq

structure Heading where
  level : Level
  text : String
  page : Nat
deriving DecidableEq

structure Outline where
  title : String
  headings : List Heading
deriving DecidableEq

structure Thresholds where
  H1 : Int
  H2 : Int
deriving DecidableEq

/-- Embeds thresholds: body size plus 4.0pt for H1, plus 2.0pt for H2 (40
and 20 tenths of a point). -/
def thresholds (body_size : Int) : Thresholds :=
  { H1 := body_size + 40, H2 := body_size + 20 }

/-- Embeds assign_level: reject boilerplate and too-short text, then size
rules, then the numbering pattern, then bold/indent heuristics. -/
def assign_level (span : Span) (thr : Thresholds) : Option Level :=
  if is_boilerplate span.text = true ∨ span.text.length < 4 then none
  else if thr.H1 ≤ span.size then some Level.H1
  else if thr.H2 ≤ span.size then some Level.H2
  else
    match numberingDepth span.text with
    | some depth =>
      some (if depth = 0 then Level.H1 else if depth = 1 then Level.H2 else Level.H3)
    | none =>
      if span.bold = true ∧ span.indent < 1000 then some Level.H2
      else if span.bold = true then some Level.H3
      else none

/-- The sizes of the spans of one page, in layout order. -/
def pageSizes (p : Page) : List Int := p.spans.map (fun sp => sp.size)

/-- All span sizes of the document in reading order, as collected by
compute_body_font_size. -/
def docSizes (doc : Doc) : List Int := (doc.pages.map pageSizes).flatten

/-- Number of occurrences of a size in a size list (a Counter entry). -/
def countSize (l : List Int) (x : Int) : Nat := l.countP (fun y => decide (y = x))

/-- Whether x has maximal frequency in l. -/
def isMaxCountIn (l : List Int) (x : Int) : Bool :=
  l.all (fun y => decide (countSize l y ≤ countSize l x))

/-- Embeds compute_body_font_size: 0 when there are no spans, otherwise
Counter.most_common(1), i.e. the first size in insertion order whose
frequency is maximal (most_common sorts by count with a stable sort, so ties
keep first-occurrence order). -/
def compute_body_font_size (doc : Doc) : Int :=
  let sizes := docSizes doc
  if sizes = [] then 0
  else
    match sizes.find? (fun x => isMaxCountIn sizes x) with
    | some m => m
    | none => 0

/-- Maximum of a size list (max of the source, used on nonempty lists). -/
def maxQ : List Int → Int
  | [] => 0
  | x :: xs => xs.foldl max x

/-- The page-1 spans eligible as title candidates: at least 3 words. -/
def titleCandidates (p : Page) : List Span :=
  p.spans.filter (fun sp => decide (3 ≤ wordCount sp.text))

/-- The maximum candidate font size on the first page. -/
def maxTitleSize (p : Page) : Int := maxQ ((titleCandidates p).map (fun sp => sp.size))

/-- First element of a sort by vertical coordinate: the span with minimal y,
ties resolved to the earliest in layout order (Python sorted is stable). -/
def minByY (l : List Span) : Option Span :=
  match l with
  | [] => none
  | sp :: rest => some (rest.foldl (fun best x => if x.y < best.y then x else best) sp)

/-- Embeds the body of detect_title_by_font on the first page: among
candidates pick the largest size, then the topmost; empty string if no span
qualifies. -/
def titleFromPage1 (p : Page) : String :=
  match minByY ((titleCandidates p).filter (fun sp => decide (sp.size = maxTitleSize p))) with
  | some sp => sp.text
  | none => ""

/-- Embeds detect_title_by_font: indexing doc at 0 raises on a document with
no pages, modelled as an error value. -/
def detect_title_by_font (doc : Doc) : Except String String :=
  match doc.pages with
  | [] => Except.error "page not in document"
  | p :: _ => Except.ok (titleFromPage1 p)

/-- Embeds detect_title: use the metadata title when nonempty, longer than 5
after stripping and not boilerplate; otherwise fall back to font-based
detection. -/
def detect_title (doc : Doc) : Except String String :=
  if doc.metadataTitle ≠ "" ∧ 5 < (sTrim doc.metadataTitle).length ∧
      is_boilerplate doc.metadataTitle = false then
    Except.ok (sTrim doc.metadataTitle)
  else detect_title_by_font doc

/-- The deduplication key of an emitted heading, as built in detect_headings:
the level paired with the lowercased raw text. -/
def keyOf (h : Heading) : Level × String := (h.level, sLower h.text)

/-- The cross-span accumulator of detect_headings: the outline built so far,
the set of emitted (level, lowercased text) keys and the last emitted raw
text. -/
structure DedupState where
  outline : List Heading
  seen : List (Level × String)
  last : Option String
deriving DecidableEq

def initState : DedupState := { outline := [], seen := [], last := none }

/-- Embeds the per-span body of the detect_headings loop: classify, then
suppress adjacent duplicates (raw text equal to the last emitted text) and
already-seen (level, lowercased text) keys. -/
def stepSpan (thr : Thresholds) (pno : Nat) (st : DedupState) (sp : Span) : DedupState :=
  match assign_level sp thr with
  | none => st
  | some lvl =>
    let key := (lvl, sLower sp.text)
    if st.last = some sp.text ∨ key ∈ st.seen then st
    else
      { outline := st.outline ++ [{ level := lvl, text := sp.text, page := pno }],
        seen := key :: st.seen,
        last := some sp.text }

/-- One page of detect_headings with every span classified (the inner loops,
without the page-skip test). -/
def stepPageFull (thr : Thresholds) (pno : Nat) (st : DedupState) (page : Page) : DedupState :=
  page.spans.foldl (stepSpan thr pno) st

/-- One page of detect_headings as written: skip the page when it has no
spans or its maximum size is below the H2 threshold. -/
def stepPage (thr : Thresholds) (pno : Nat) (st : DedupState) (page : Page) : DedupState :=
  if pageSizes page = [] ∨ maxQ (pageSizes page) < thr.H2 then st
  else stepPageFull thr pno st page

/-- The page loop of detect_headings, pages numbered from 1. -/
def detectAux (thr : Thresholds) : Nat → List Page → DedupState → DedupState
  | _, [], st => st
  | pno, p :: ps, st => detectAux thr (pno + 1) ps (stepPage thr pno st p)

/-- Embeds detect_headings. -/
def detect_headings (doc : Doc) (body_size : Int) : List Heading :=
  (detectAux (thresholds body_size) 1 doc.pages initState).outline

/-- The page loop with the page-skip test removed (classify every span of
every page): the comparator of the safe-pruning claim. -/
def detectAuxFull (thr : Thresholds) : Nat → List Page → DedupState → DedupState
  | _, [], st => st
  | pno, p :: ps, st => detectAuxFull thr (pno + 1) ps (stepPageFull thr pno st p)

/-- Modelled from the spec: heading detection that classifies every span of
every page, the reference side of the page-prune refinement claim. -/
def detect_headings_full (doc : Doc) (body_size : Int) : List Heading :=
  (detectAuxFull (thresholds body_size) 1 doc.pages initState).outline

/-- Pages paired with their 1-based page numbers. -/
def enum1 : Nat → List Page → List (Nat × Page)
  | _, [] => []
  | n, p :: ps => (n, p) :: enum1 (n + 1) ps

/-- The per-page body of the OCR fallback loop: when the text layer is
empty, the first line of the stripped OCR output becomes an H1 heading if it
is nonempty and not boilerplate. -/
def ocrF (pp : Nat × Page) : Option Heading :=
  if sTrim pp.2.textLayer = "" then
    let snippet := firstLine (sTrim pp.2.ocrText)
    if snippet ≠ "" ∧ is_boilerplate snippet = false then
      some { level := Level.H1, text := snippet, page := pp.1 }
    else none
  else none

/-- Embeds the OCR fallback loop of extract_outline. -/
def ocrFallback (doc : Doc) : List Heading :=
  (enum1 1 doc.pages).filterMap ocrF

/-- The headings extract_outline returns: the first pass, or the OCR
fallback when the first pass found nothing. -/
def finalHeadings (doc : Doc) : List Heading :=
  let hs := detect_headings doc (compute_body_font_size doc)
  if hs = [] then ocrFallback doc else hs

/-- Embeds extract_outline: title (whose fallback can raise on an empty
document), body size, headings, OCR fallback. -/
def extract_outline (doc : Doc) : Except String Outline :=
  match detect_title doc with
  | Except.error e => Except.error e
  | Except.ok title => Except.ok { title := title, headings := finalHeadings doc }

/-- Total number of spans of a document. -/
def totalSpans (doc : Doc) : Nat := (doc.pages.map (fun p => p.spans.length)).sum

/-- Modelled from the spec: the deduplication normalization the spec
prescribes, stripping all non-word characters and lowercasing (the source
only lowercases). -/
def spec_normalize (s : String) : String :=
  String.mk ((s.data.filter (fun c => c.isAlphanum || c == '_')).map Char.toLower)

/-- Invariant of the deduplication fold: every emitted heading's key has
been recorded in seen, and the keys of the outline are pairwise distinct. -/
def DedupInv (st : DedupState) : Prop :=
  (∀ h ∈ st.outline, keyOf h ∈ st.seen) ∧
  List.Pairwise (fun a b => keyOf a ≠ keyOf b) st.outline

/-- A plain non-bold span at the given size, with irrelevant coordinates. -/
def mkSpan (t : String) (s : Int) : Span :=
  { text := t, size := s, bold := false, indent := 0, y := 0 }

/-- 31 distinct large headings on one page: exhibits an outline longer than
any alleged cap of 30. -/
def c1doc : Doc :=
  { metadataTitle := "",
    pages := [{ spans := (List.range 31).map (fun i => mkSpan ("Chap " ++ Nat.repr i) 200),
                textLayer := "x", ocrText := "" }] }

/-- Two spans of sizes 100 and 120 in this order. -/
def c2docA : Doc :=
  { metadataTitle := "",
    pages := [{ spans := [mkSpan "aaaa" 100, mkSpan "bbbb" 120], textLayer := "x", ocrText := "" }] }

/-- The same two spans in the opposite order. -/
def c2docB : Doc :=
  { metadataTitle := "",
    pages := [{ spans := [mkSpan "bbbb" 120, mkSpan "aaaa" 100], textLayer := "x", ocrText := "" }] }

/-- Sizes 100, 100, 120: the size 100 is the unique most frequent one. -/
def c2wdocA : Doc :=
  { metadataTitle := "",
    pages := [{ spans := [mkSpan "aaaa" 100, mkSpan "bbbb" 100, mkSpan "cccc" 120],
                textLayer := "x", ocrText := "" }] }

/-- A permutation of the spans of c2wdocA. -/
def c2wdocB : Doc :=
  { metadataTitle := "",
    pages := [{ spans := [mkSpan "bbbb" 100, mkSpan "cccc" 120, mkSpan "aaaa" 100],
                textLayer := "x", ocrText := "" }] }

/-- One page with no spans at all. -/
def c3doc : Doc :=
  { metadataTitle := "", pages := [{ spans := [], textLayer := "", ocrText := "" }] }

/-- A document with no pages and no metadata title. -/
def c4doc : Doc := { metadataTitle := "", pages := [] }

/-- One empty page whose OCR yields nothing. -/
def c4wdoc : Doc :=
  { metadataTitle := "", pages := [{ spans := [], textLayer := "", ocrText := "" }] }

/-- Two H1-sized spans whose texts differ only in a trailing non-word
character. -/
def c5doc : Doc :=
  { metadataTitle := "",
    pages := [{ spans := [mkSpan "Intro!" 200, mkSpan "Intro?" 200], textLayer := "x", ocrText := "" }] }

/-- A page whose maximum size is below the H2 threshold but which carries a
numbered heading. -/
def c6doc : Doc :=
  { metadataTitle := "",
    pages := [{ spans := [mkSpan "1.1 Scope" 100], textLayer := "x", ocrText := "" }] }

/-- A pruned page none of whose spans the classifier would accept. -/
def c6wdoc : Doc :=
  { metadataTitle := "",
    pages := [{ spans := [mkSpan "hello world" 100], textLayer := "x", ocrText := "" }] }

/-- Two body spans at size 10 and one large heading span. -/
def c8wdoc : Doc :=
  { metadataTitle := "",
    pages := [{ spans := [mkSpan "lorem ipsum dolor" 100, mkSpan "sit amet text" 100,
                          mkSpan "Introduction Chapter" 200],
                textLayer := "x", ocrText := "" }] }

/-- First page with a unique 20pt three-word span and a smaller body span. -/
def c9page : Page :=
  { spans := [{ text := "System Architecture Overview", size := 200, bold := false,
                indent := 0, y := 5 },
              { text := "tiny note here", size := 100, bold := false, indent := 0, y := 50 }],
    textLayer := "x", ocrText := "" }

/-- A document with empty metadata title and c9page as its first page. -/
def c9wdoc : Doc := { metadataTitle := "", pages := [c9page] }

theorem numberingDepth_pos (t : String) (k : Nat) (h : numberingDepth t = some k) : 1 ≤ k := by
  simp only [numberingDepth] at h
  split at h
  · exact absurd h (by simp)
  · split at h
    · exact absurd h (by simp)
    · rename_i hg
      split at h
      · split at h
        · cases h
          exact Nat.one_le_iff_ne_zero.mpr hg
        · exact absurd h (by simp)
      · exact absurd h (by simp)

/-- Claim C10: the classifier assigns H1 only through the size rule: an H1
answer forces the span's size to reach the H1 threshold; the numbering
pattern always produces a positive dot count, so its depth-0 H1 branch is
unreachable; and the bold/indent rule expression never yields H1. -/
theorem C10_theorem :
    (∀ sp thr, assign_level sp thr = some Level.H1 → thr.H1 ≤ sp.size) ∧
    (∀ t k, numberingDepth t = some k → 1 ≤ k) ∧
    (∀ (b : Bool) (i : Int),
      (if b = true ∧ i < 1000 then some Level.H2
       else if b = true then some Level.H3 else none) ≠ some Level.H1) := by
  refine ⟨?_, fun t k h => numberingDepth_pos t k h, ?_⟩
  · intro sp thr h
    unfold assign_level at h
    split at h
    · exact absurd h (by simp)
    · split at h
      · assumption
      · split at h
        · exact absurd h (by simp)
        · split at h
          · rename_i depth hdep
            have hpos := numberingDepth_pos _ _ hdep
            have hne : depth ≠ 0 := Nat.one_le_iff_ne_zero.mp hpos
            rw [if_neg hne] at h
            split at h <;> simp_all
          · split at h
            · exact absurd h (by simp)
            · split at h
              · exact absurd h (by simp)
              · exact absurd h (by simp)
  · intro b i
    split
    · simp
    · split <;> simp

theorem C10_witness :
    (Thresholds.mk 140 120).H1 ≤ (Span.mk "Big Heading" 200 false 0 0).size :=
  C10_theorem.1 (Span.mk "Big Heading" 200 false 0 0) (Thresholds.mk 140 120) (by decide)

/-- Claim C7: for an unrejected span below both size thresholds, the
numbering rule maps a matched leading multi-segment numeral to a level by
its dot count (one dot H2, two or more dots H3, the depth-0 H1 branch being
unreachable), while "1 Introduction" does not match and falls through to
the bold/indent rules. -/
theorem C7_theorem :
    numberingDepth "1 Introduction" = none ∧
    ∀ sp thr, is_boilerplate sp.text = false → 4 ≤ sp.text.length →
      sp.size < thr.H1 → sp.size < thr.H2 →
      ((∀ k, numberingDepth sp.text = some k → 1 ≤ k ∧
          assign_level sp thr = some (if k = 1 then Level.H2 else Level.H3)) ∧
       (numberingDepth sp.text = none →
          assign_level sp thr =
            (if sp.bold = true ∧ sp.indent < 1000 then some Level.H2
             else if sp.bold = true then some Level.H3 else none))) := by
  refine ⟨by decide, ?_⟩
  intro sp thr hb hl h1 h2
  have hcond : ¬(is_boilerplate sp.text = true ∨ sp.text.length < 4) := by
    simp [hb, Nat.not_lt.mpr hl]
  have hno1 : ¬ thr.H1 ≤ sp.size := not_le.mpr h1
  have hno2 : ¬ thr.H2 ≤ sp.size := not_le.mpr h2
  constructor
  · intro k hk
    have hpos := numberingDepth_pos _ _ hk
    refine ⟨hpos, ?_⟩
    unfold assign_level
    rw [if_neg hcond, if_neg hno1, if_neg hno2, hk]
    have hne : k ≠ 0 := Nat.one_le_iff_ne_zero.mp hpos
    dsimp only
    rw [if_neg hne]
  · intro hk
    unfold assign_level
    rw [if_neg hcond, if_neg hno1, if_neg hno2, hk]

theorem C7_witness :
    numberingDepth "1 Introduction" = none ∧
    assign_level (Span.mk "1.1 Scope of Work" 125 false 400 0) (thresholds 110) =
      some Level.H2 := by
  refine ⟨C7_theorem.1, ?_⟩
  have h := (C7_theorem.2 (Span.mk "1.1 Scope of Work" 125 false 400 0) (thresholds 110)
    (by decide) (by decide) (by decide) (by decide)).1 1 (by decide)
  simpa using h.2

theorem stepSpan_length (thr : Thresholds) (pno : Nat) (st : DedupState) (sp : Span) :
    (stepSpan thr pno st sp).outline.length ≤ st.outline.length + 1 := by
  unfold stepSpan
  split
  · exact Nat.le_succ _
  · dsimp only
    split
    · exact Nat.le_succ _
    · simp

theorem foldl_stepSpan_length (thr : Thresholds) (pno : Nat) :
    ∀ (spans : List Span) (st : DedupState),
      ((spans.foldl (stepSpan thr pno) st).outline.length ≤ st.outline.length + spans.length) := by
  intro spans
  induction spans with
  | nil => intro st; simp
  | cons sp t ih =>
    intro st
    have h1 := stepSpan_length thr pno st sp
    have h2 := ih (stepSpan thr pno st sp)
    simp only [List.foldl_cons, List.length_cons]
    omega

theorem stepPage_length (thr : Thresholds) (pno : Nat) (st : DedupState) (p : Page) :
    (stepPage thr pno st p).outline.length ≤ st.outline.length + p.spans.length := by
  unfold stepPage
  split
  · exact Nat.le_add_right _ _
  · exact foldl_stepSpan_length thr pno p.spans st

theorem detectAux_length (thr : Thresholds) :
    ∀ (ps : List Page) (pno : Nat) (st : DedupState),
      (detectAux thr pno ps st).outline.length ≤
        st.outline.length + (ps.map (fun p => p.spans.length)).sum := by
  intro ps
  induction ps with
  | nil => intro pno st; simp [detectAux]
  | cons p t ih =>
    intro pno st
    have h1 := stepPage_length thr pno st p
    have h2 := ih (pno + 1) (stepPage thr pno st p)
    simp only [detectAux, List.map_cons, List.sum_cons]
    omega

/-- Claim C1 amended: the source enforces no heading cap at all; the only
bound is the total number of spans of the document, since each span adds at
most one heading to the outline. -/
theorem C1_theorem (doc : Doc) (body_size : Int) :
    (detect_headings doc body_size).length ≤ totalSpans doc := by
  have h := detectAux_length (thresholds body_size) doc.pages 1 initState
  simpa [detect_headings, totalSpans, initState] using h

theorem C1_counterexample : 30 < (detect_headings c1doc 100).length := by decide

/-- Claim C3 amended: with no spans at all, compute_body_font_size returns 0
(not the spec's 12.0 default), still without raising. -/
theorem C3_theorem (doc : Doc) (h : docSizes doc = []) : compute_body_font_size doc = 0 := by
  simp [compute_body_font_size, h]

theorem C3_witness : compute_body_font_size c3doc = 0 := C3_theorem c3doc (by decide)

theorem C3_counterexample :
    docSizes c3doc = [] ∧ compute_body_font_size c3doc ≠ 120 := ⟨by decide, by decide⟩

theorem exists_maxCount (f : Int → Nat) :
    ∀ (l : List Int), l ≠ [] → ∃ x ∈ l, ∀ y ∈ l, f y ≤ f x := by
  intro l
  induction l with
  | nil => intro h; exact absurd rfl h
  | cons a t ih =>
    intro _
    cases t with
    | nil =>
      refine ⟨a, List.mem_cons_self a [], ?_⟩
      intro y hy
      rcases List.mem_cons.mp hy with rfl | hy
      · exact le_refl _
      · exact absurd hy (List.not_mem_nil y)
    | cons b u =>
      obtain ⟨x, hx, hmax⟩ := ih (by simp)
      by_cases hfa : f a ≤ f x
      · refine ⟨x, List.mem_cons_of_mem a hx, ?_⟩
        intro y hy
        rcases List.mem_cons.mp hy with rfl | hy
        · exact hfa
        · exact hmax y hy
      · push_neg at hfa
        refine ⟨a, List.mem_cons_self a (b :: u), ?_⟩
        intro y hy
        rcases List.mem_cons.mp hy with rfl | hy
        · exact le_refl _
        · exact le_trans (hmax y hy) (le_of_lt hfa)

theorem find?_max_spec (l : List Int) (hl : l ≠ []) :
    ∃ m, l.find? (fun x => isMaxCountIn l x) = some m ∧ m ∈ l ∧
      ∀ y ∈ l, countSize l y ≤ countSize l m := by
  obtain ⟨x, hx, hmax⟩ := exists_maxCount (countSize l) l hl
  have hpx : isMaxCountIn l x = true := by
    simp only [isMaxCountIn, List.all_eq_true, decide_eq_true_eq]
    exact hmax
  have hsome : (l.find? (fun x => isMaxCountIn l x)).isSome := by
    rw [List.find?_isSome]
    exact ⟨x, hx, hpx⟩
  obtain ⟨m, hm⟩ := Option.isSome_iff_exists.mp hsome
  refine ⟨m, hm, List.mem_of_find?_eq_some hm, ?_⟩
  have hpm := List.find?_some hm
  simpa only [isMaxCountIn, List.all_eq_true, decide_eq_true_eq] using hpm

/-- Claim C2 amended: compute_body_font_size returns a size of maximal
frequency, ties broken by first occurrence in reading order (not by the
smallest tied size); hence it is permutation-invariant whenever the maximal
frequency is attained by a single size value. -/
theorem C2_theorem (d1 d2 : Doc) (hperm : (docSizes d1).Perm (docSizes d2))
    (huniq : ∀ a ∈ docSizes d1, ∀ b ∈ docSizes d1,
      (∀ y ∈ docSizes d1, countSize (docSizes d1) y ≤ countSize (docSizes d1) a) →
      (∀ y ∈ docSizes d1, countSize (docSizes d1) y ≤ countSize (docSizes d1) b) → a = b) :
    compute_body_font_size d1 = compute_body_font_size d2 := by
  by_cases h1 : docSizes d1 = []
  · have h2 : docSizes d2 = [] := by
      rw [h1] at hperm
      exact hperm.symm.eq_nil
    simp [compute_body_font_size, h1, h2]
  · have h2 : docSizes d2 ≠ [] := by
      intro h
      rw [h] at hperm
      exact h1 hperm.eq_nil
    obtain ⟨m1, hf1, hm1mem, hm1max⟩ := find?_max_spec (docSizes d1) h1
    obtain ⟨m2, hf2, hm2mem, hm2max⟩ := find?_max_spec (docSizes d2) h2
    have hcount : ∀ x, countSize (docSizes d1) x = countSize (docSizes d2) x := by
      intro x
      exact hperm.countP_eq _
    have hm2mem1 : m2 ∈ docSizes d1 := hperm.mem_iff.mpr hm2mem
    have hm2max1 : ∀ y ∈ docSizes d1,
        countSize (docSizes d1) y ≤ countSize (docSizes d1) m2 := by
      intro y hy
      rw [hcount y, hcount m2]
      exact hm2max y (hperm.mem_iff.mp hy)
    have heq : m1 = m2 := huniq m1 hm1mem m2 hm2mem1 hm1max hm2max1
    simp only [compute_body_font_size, if_neg h1, if_neg h2, hf1, hf2, heq]

theorem C2_witness : compute_body_font_size c2wdocA = compute_body_font_size c2wdocB :=
  C2_theorem c2wdocA c2wdocB (by decide) (by decide)

theorem C2_counterexample :
    (docSizes c2docA).Perm (docSizes c2docB) ∧
    compute_body_font_size c2docA = 100 ∧ compute_body_font_size c2docB = 120 :=
  ⟨by decide, by decide, by decide⟩

theorem stepSpan_inv (thr : Thresholds) (pno : Nat) (st : DedupState) (sp : Span)
    (h : DedupInv st) : DedupInv (stepSpan thr pno st sp) := by
  unfold stepSpan
  cases hassign : assign_level sp thr with
  | none => exact h
  | some lvl =>
    dsimp only
    split
    · exact h
    · rename_i hcond
      push_neg at hcond
      obtain ⟨hlast, hseen⟩ := hcond
      constructor
      · intro hh hmem
        rcases List.mem_append.mp hmem with hold | hnew
        · exact List.mem_cons_of_mem _ (h.1 hh hold)
        · have : hh = { level := lvl, text := sp.text, page := pno } := by
            simpa using hnew
          subst this
          exact List.mem_cons_self _ _
      · rw [List.pairwise_append]
        refine ⟨h.2, List.pairwise_singleton _ _, ?_⟩
        intro a ha b hb
        have hbeq : b = { level := lvl, text := sp.text, page := pno } := by
          simpa using hb
        subst hbeq
        intro hk
        apply hseen
        have hka : keyOf a ∈ st.seen := h.1 a ha
        rw [hk] at hka
        exact hka

theorem foldl_stepSpan_inv (thr : Thresholds) (pno : Nat) :
    ∀ (spans : List Span) (st : DedupState),
      DedupInv st → DedupInv (spans.foldl (stepSpan thr pno) st) := by
  intro spans
  induction spans with
  | nil => intro st h; exact h
  | cons sp t ih =>
    intro st h
    exact ih _ (stepSpan_inv thr pno st sp h)

theorem stepPage_inv (thr : Thresholds) (pno : Nat) (st : DedupState) (p : Page)
    (h : DedupInv st) : DedupInv (stepPage thr pno st p) := by
  unfold stepPage
  split
  · exact h
  · exact foldl_stepSpan_inv thr pno p.spans st h

theorem detectAux_inv (thr : Thresholds) :
    ∀ (ps : List Page) (pno : Nat) (st : DedupState),
      DedupInv st → DedupInv (detectAux thr pno ps st) := by
  intro ps
  induction ps with
  | nil => intro pno st h; exact h
  | cons p t ih =>
    intro pno st h
    exact ih (pno + 1) _ (stepPage_inv thr pno st p h)

/-- Claim C5 amended: the outline never contains two headings with the same
level and the same lowercased text (the source normalizes by lowercasing
only, not by stripping non-word characters), and a candidate whose raw text
equals the most recently emitted text leaves the fold state unchanged. -/
theorem C5_theorem :
    (∀ (doc : Doc) (body_size : Int),
      List.Pairwise (fun a b => ¬(a.level = b.level ∧ sLower a.text = sLower b.text))
        (detect_headings doc body_size)) ∧
    (∀ thr pno st sp, st.last = some sp.text → stepSpan thr pno st sp = st) := by
  constructor
  · intro doc body_size
    have h := detectAux_inv (thresholds body_size) doc.pages 1 initState
      (by exact ⟨by simp [initState], by simp [initState]⟩)
    refine (h.2).imp ?_
    intro a b hk hab
    apply hk
    simp only [keyOf, hab.1, hab.2]
  · intro thr pno st sp h
    unfold stepSpan
    cases hassign : assign_level sp thr with
    | none => rfl
    | some lvl =>
      dsimp only
      rw [if_pos (Or.inl h)]

theorem C5_witness :
    stepSpan (Thresholds.mk 140 120) 1 (DedupState.mk [] [] (some "Overview"))
      (mkSpan "Overview" 200) = DedupState.mk [] [] (some "Overview") :=
  C5_theorem.2 (Thresholds.mk 140 120) 1 (DedupState.mk [] [] (some "Overview"))
    (mkSpan "Overview" 200) rfl

theorem C5_counterexample :
    detect_headings c5doc 100 =
      [{ level := Level.H1, text := "Intro!", page := 1 },
       { level := Level.H1, text := "Intro?", page := 1 }] ∧
    spec_normalize "Intro!" = spec_normalize "Intro?" ∧ ("Intro!" : String) ≠ "Intro?" :=
  ⟨by decide, by decide, by decide⟩

theorem foldl_stepSpan_none (thr : Thresholds) (pno : Nat) :
    ∀ (spans : List Span) (st : DedupState),
      (∀ sp ∈ spans, assign_level sp thr = none) →
      spans.foldl (stepSpan thr pno) st = st := by
  intro spans
  induction spans with
  | nil => intro st _; rfl
  | cons sp t ih =>
    intro st h
    have hsp : stepSpan thr pno st sp = st := by
      unfold stepSpan
      rw [h sp (List.mem_cons_self sp t)]
    simp only [List.foldl_cons, hsp]
    exact ih st (fun q hq => h q (List.mem_cons_of_mem sp hq))

theorem detectAux_eq_full (thr : Thresholds) :
    ∀ (ps : List Page) (pno : Nat) (st : DedupState),
      (∀ p ∈ ps, (pageSizes p = [] ∨ maxQ (pageSizes p) < thr.H2) →
        ∀ sp ∈ p.spans, assign_level sp thr = none) →
      detectAux thr pno ps st = detectAuxFull thr pno ps st := by
  intro ps
  induction ps with
  | nil => intro pno st _; rfl
  | cons p t ih =>
    intro pno st h
    have hstep : stepPage thr pno st p = stepPageFull thr pno st p := by
      unfold stepPage
      split
      · rename_i hc
        exact (foldl_stepSpan_none thr pno p.spans st
          (h p (List.mem_cons_self p t) hc)).symm
      · rfl
    simp only [detectAux, detectAuxFull, hstep]
    exact ih (pno + 1) _ (fun q hq hc => h q (List.mem_cons_of_mem p hq) hc)

/-- Claim C6 amended: the page-level prune is not safe in general (a pruned
page can carry numbering- or bold-rule headings); it is an equivalence
exactly on documents where no span of any pruned page would be classified
at all. -/
theorem C6_theorem (doc : Doc) (body_size : Int)
    (h : ∀ p ∈ doc.pages,
      (pageSizes p = [] ∨ maxQ (pageSizes p) < (thresholds body_size).H2) →
      ∀ sp ∈ p.spans, assign_level sp (thresholds body_size) = none) :
    detect_headings doc body_size = detect_headings_full doc body_size := by
  unfold detect_headings detect_headings_full
  rw [detectAux_eq_full (thresholds body_size) doc.pages 1 initState h]

theorem C6_witness : detect_headings c6wdoc 100 = detect_headings_full c6wdoc 100 :=
  C6_theorem c6wdoc 100 (by decide)

theorem C6_counterexample :
    detect_headings c6doc 100 = [] ∧
    detect_headings_full c6doc 100 = [{ level := Level.H2, text := "1.1 Scope", page := 1 }] ∧
    detect_headings c6doc 100 ≠ detect_headings_full c6doc 100 :=
  ⟨by decide, by decide, by decide⟩

theorem foldl_max_mem : ∀ (xs : List Int) (a : Int), xs.foldl max a ∈ a :: xs := by
  intro xs
  induction xs with
  | nil => intro a; simp
  | cons x t ih =>
    intro a
    have h := ih (max a x)
    simp only [List.mem_cons] at h ⊢
    rcases h with h1 | h1
    · rcases max_choice a x with h2 | h2
      · exact Or.inl (h1.trans h2)
      · exact Or.inr (Or.inl (h1.trans h2))
    · exact Or.inr (Or.inr h1)

theorem le_foldl_max : ∀ (xs : List Int) (a y : Int), y ∈ a :: xs → y ≤ xs.foldl max a := by
  intro xs
  induction xs with
  | nil =>
    intro a y hy
    simp only [List.foldl_nil]
    rcases List.mem_cons.mp hy with rfl | h
    · exact le_refl _
    · exact absurd h (List.not_mem_nil y)
  | cons x t ih =>
    intro a y hy
    simp only [List.foldl_cons]
    rcases List.mem_cons.mp hy with rfl | h
    · exact le_trans (le_max_left y x) (ih (max y x) (max y x) (List.mem_cons_self _ _))
    · rcases List.mem_cons.mp h with rfl | h2
      · exact le_trans (le_max_right a y) (ih (max a y) (max a y) (List.mem_cons_self _ _))
      · exact ih (max a x) y (List.mem_cons_of_mem _ h2)

theorem maxQ_mem (l : List Int) (h : l ≠ []) : maxQ l ∈ l := by
  cases l with
  | nil => exact absurd rfl h
  | cons x xs => exact foldl_max_mem xs x

theorem le_maxQ (l : List Int) (x : Int) (h : x ∈ l) : x ≤ maxQ l := by
  cases l with
  | nil => exact absurd h (List.not_mem_nil x)
  | cons a xs => exact le_foldl_max xs a x h

theorem foldl_pick_mem :
    ∀ (rest : List Span) (b : Span),
      rest.foldl (fun best x => if x.y < best.y then x else best) b ∈ b :: rest := by
  intro rest
  induction rest with
  | nil => intro b; simp
  | cons c t ih =>
    intro b
    have h := ih (if c.y < b.y then c else b)
    simp only [List.mem_cons] at h ⊢
    rcases h with h1 | h1
    · by_cases hc : c.y < b.y
      · exact Or.inr (Or.inl (h1.trans (if_pos hc)))
      · exact Or.inl (h1.trans (if_neg hc))
    · exact Or.inr (Or.inr h1)

theorem foldl_pick_le :
    ∀ (rest : List Span) (b : Span) (x : Span), x ∈ b :: rest →
      (rest.foldl (fun best z => if z.y < best.y then z else best) b).y ≤ x.y := by
  intro rest
  induction rest with
  | nil =>
    intro b x hx
    simp only [List.foldl_nil]
    rcases List.mem_cons.mp hx with rfl | h
    · exact le_refl _
    · exact absurd h (List.not_mem_nil x)
  | cons c t ih =>
    intro b x hx
    simp only [List.foldl_cons]
    have hpick_b : (if c.y < b.y then c else b).y ≤ b.y := by
      by_cases hc : c.y < b.y
      · rw [if_pos hc]; exact le_of_lt hc
      · rw [if_neg hc]
    have hpick_c : (if c.y < b.y then c else b).y ≤ c.y := by
      by_cases hc : c.y < b.y
      · rw [if_pos hc]
      · rw [if_neg hc]; exact not_lt.mp hc
    have hhead := ih (if c.y < b.y then c else b) (if c.y < b.y then c else b)
      (List.mem_cons_self _ _)
    rcases List.mem_cons.mp hx with rfl | h
    · exact le_trans hhead hpick_b
    · rcases List.mem_cons.mp h with rfl | h2
      · exact le_trans hhead hpick_c
      · exact ih (if c.y < b.y then c else b) x (List.mem_cons_of_mem _ h2)

theorem minByY_spec (l : List Span) (h : l ≠ []) :
    ∃ sp, minByY l = some sp ∧ sp ∈ l ∧ ∀ x ∈ l, sp.y ≤ x.y := by
  cases l with
  | nil => exact absurd rfl h
  | cons b rest =>
    exact ⟨_, rfl, foldl_pick_mem rest b, fun x hx => foldl_pick_le rest b x hx⟩

/-- Claim C9: when the metadata title is empty, too short after trimming or
boilerplate, detect_title falls back to the page-1 span of maximal size
among spans of at least 3 words, topmost among the maximal-size ones, and
returns the empty string when no page-1 span qualifies. -/
theorem C9_theorem (doc : Doc) (p1 : Page) (rest : List Page)
    (hp : doc.pages = p1 :: rest)
    (hm : doc.metadataTitle = "" ∨ (sTrim doc.metadataTitle).length ≤ 5 ∨
      is_boilerplate doc.metadataTitle = true) :
    (titleCandidates p1 = [] → detect_title doc = Except.ok "") ∧
    (titleCandidates p1 ≠ [] →
      ∃ sp, sp ∈ titleCandidates p1 ∧ detect_title doc = Except.ok sp.text ∧
        3 ≤ wordCount sp.text ∧
        (∀ sp2 ∈ titleCandidates p1, sp2.size ≤ sp.size) ∧
        (∀ sp2 ∈ titleCandidates p1, sp2.size = sp.size → sp.y ≤ sp2.y)) := by
  have hfall : detect_title doc = Except.ok (titleFromPage1 p1) := by
    unfold detect_title
    rw [if_neg]
    · unfold detect_title_by_font
      rw [hp]
    · intro hcond
      obtain ⟨hne, hlen, hboil⟩ := hcond
      rcases hm with h | h | h
      · exact hne h
      · exact absurd hlen (Nat.not_lt.mpr h)
      · rw [h] at hboil
        exact Bool.noConfusion hboil
  constructor
  · intro hq
    rw [hfall]
    simp [titleFromPage1, hq, minByY]
  · intro hq
    have hmapne : (titleCandidates p1).map (fun sp => sp.size) ≠ [] := by
      simpa using hq
    have hmax := maxQ_mem _ hmapne
    obtain ⟨spm, hspm, hsz⟩ := List.mem_map.mp hmax
    have hcand : spm ∈ (titleCandidates p1).filter
        (fun sp => decide (sp.size = maxTitleSize p1)) := by
      refine List.mem_filter.mpr ⟨hspm, ?_⟩
      simp [maxTitleSize, hsz]
    have hcne : (titleCandidates p1).filter
        (fun sp => decide (sp.size = maxTitleSize p1)) ≠ [] :=
      List.ne_nil_of_mem hcand
    obtain ⟨spb, hmin, hmem, hle⟩ := minByY_spec _ hcne
    have hspb_q : spb ∈ titleCandidates p1 := (List.mem_filter.mp hmem).1
    have hspb_sz : spb.size = maxTitleSize p1 := by
      have := (List.mem_filter.mp hmem).2
      simpa using this
    refine ⟨spb, hspb_q, ?_, ?_, ?_, ?_⟩
    · rw [hfall]
      unfold titleFromPage1
      rw [hmin]
    · have := (List.mem_filter.mp (show spb ∈ p1.spans.filter
        (fun sp => decide (3 ≤ wordCount sp.text)) from hspb_q)).2
      simpa using this
    · intro sp2 hsp2
      have hmem2 : sp2.size ∈ (titleCandidates p1).map (fun sp => sp.size) :=
        List.mem_map_of_mem _ hsp2
      calc sp2.size ≤ maxQ ((titleCandidates p1).map (fun sp => sp.size)) :=
            le_maxQ _ _ hmem2
        _ = spb.size := hspb_sz.symm
    · intro sp2 hsp2 hsz2
      have hin : sp2 ∈ (titleCandidates p1).filter
          (fun sp => decide (sp.size = maxTitleSize p1)) := by
        refine List.mem_filter.mpr ⟨hsp2, ?_⟩
        rw [hsz2, hspb_sz]
        simp
      exact hle sp2 hin

theorem C9_witness :
    ∃ sp, sp ∈ titleCandidates c9page ∧ detect_title c9wdoc = Except.ok sp.text ∧
      3 ≤ wordCount sp.text ∧
      (∀ sp2 ∈ titleCandidates c9page, sp2.size ≤ sp.size) ∧
      (∀ sp2 ∈ titleCandidates c9page, sp2.size = sp.size → sp.y ≤ sp2.y) :=
  (C9_theorem c9wdoc c9page [] rfl (Or.inl rfl)).2 (by decide)

theorem enum1_mem : ∀ (ps : List Page) (n : Nat) (pp : Nat × Page),
    pp ∈ enum1 n ps → pp.2 ∈ ps := by
  intro ps
  induction ps with
  | nil => intro n pp h; exact absurd h (List.not_mem_nil pp)
  | cons p t ih =>
    intro n pp h
    rcases List.mem_cons.mp h with rfl | h2
    · exact List.mem_cons_self p t
    · exact List.mem_cons_of_mem p (ih (n + 1) pp h2)

theorem detectAux_noSpans (thr : Thresholds) :
    ∀ (ps : List Page) (pno : Nat) (st : DedupState),
      (∀ p ∈ ps, p.spans = []) → detectAux thr pno ps st = st := by
  intro ps
  induction ps with
  | nil => intro pno st _; rfl
  | cons p t ih =>
    intro pno st h
    have hp : p.spans = [] := h p (List.mem_cons_self p t)
    have hstep : stepPage thr pno st p = st := by
      unfold stepPage
      rw [if_pos]
      exact Or.inl (by simp [pageSizes, hp])
    simp only [detectAux, hstep]
    exact ih (pno + 1) st (fun q hq => h q (List.mem_cons_of_mem p hq))

/-- Claim C4 amended: a document with at least one page, empty metadata
title, no spans on any page and no OCR text for its pages yields the empty
outline; a zero-page document instead makes the title fallback raise (the
first-page access fails), so the unconditional claim does not hold. -/
theorem C4_theorem (doc : Doc) (h1 : doc.pages ≠ []) (h2 : doc.metadataTitle = "")
    (h3 : ∀ p ∈ doc.pages, p.spans = [])
    (h4 : ∀ p ∈ doc.pages, firstLine (sTrim p.ocrText) = "") :
    extract_outline doc = Except.ok { title := "", headings := [] } := by
  obtain ⟨p1, rest, hp⟩ : ∃ p1 rest, doc.pages = p1 :: rest := by
    cases hpp : doc.pages with
    | nil => exact absurd hpp h1
    | cons a b => exact ⟨a, b, rfl⟩
  have htitle : detect_title doc = Except.ok "" := by
    unfold detect_title
    rw [if_neg]
    · unfold detect_title_by_font
      rw [hp]
      have hsp : p1.spans = [] := h3 p1 (hp ▸ List.mem_cons_self p1 rest)
      simp [titleFromPage1, titleCandidates, hsp, minByY]
    · intro hcond
      exact hcond.1 h2
  have hheads : detect_headings doc (compute_body_font_size doc) = [] := by
    unfold detect_headings
    rw [detectAux_noSpans (thresholds (compute_body_font_size doc)) doc.pages 1 initState h3]
    rfl
  have hocr : ocrFallback doc = [] := by
    unfold ocrFallback
    rw [List.filterMap_eq_nil_iff]
    intro pp hpp
    have hpmem : pp.2 ∈ doc.pages := enum1_mem doc.pages 1 pp hpp
    unfold ocrF
    split
    · rw [if_neg]
      simp [h4 pp.2 hpmem]
    · rfl
  unfold extract_outline
  rw [htitle]
  have hfin : finalHeadings doc = [] := by
    unfold finalHeadings
    rw [hheads]
    simpa using hocr
  rw [hfin]

theorem C4_witness : extract_outline c4wdoc = Except.ok { title := "", headings := [] } :=
  C4_theorem c4wdoc (by decide) rfl (by decide) (by decide)

theorem C4_counterexample :
    extract_outline c4doc = Except.error "page not in document" ∧
    extract_outline c4doc ≠ Except.ok { title := "", headings := [] } := by
  refine ⟨rfl, ?_⟩
  intro h
  rw [show extract_outline c4doc = Except.error "page not in document" from rfl] at h
  exact Except.noConfusion h

theorem ocrF_page (pp : Nat × Page) (h : Heading) (hf : ocrF pp = some h) :
    h.page = pp.1 := by
  unfold ocrF at hf
  split at hf
  · dsimp only at hf
    split at hf
    · cases hf
      rfl
    · exact absurd hf (by simp)
  · exact absurd hf (by simp)

theorem ocrF_spec (pp : Nat × Page) (h : Heading) (hf : ocrF pp = some h) :
    h.level = Level.H1 ∧ sTrim pp.2.textLayer = "" ∧
      h.text = firstLine (sTrim pp.2.ocrText) ∧ h.text ≠ "" ∧
      is_boilerplate h.text = false := by
  unfold ocrF at hf
  split at hf
  · rename_i hlayer
    dsimp only at hf
    split at hf
    · rename_i hsnip
      cases hf
      exact ⟨rfl, hlayer, rfl, hsnip.1, hsnip.2⟩
    · exact absurd hf (by simp)
  · exact absurd hf (by simp)

theorem ocr_pages_sublist :
    ∀ (l : List (Nat × Page)),
      ((l.filterMap ocrF).map Heading.page).Sublist (l.map Prod.fst) := by
  intro l
  induction l with
  | nil => simp
  | cons a t ih =>
    rw [List.filterMap_cons]
    cases hf : ocrF a with
    | none =>
      simp only [List.map_cons]
      exact ih.cons a.1
    | some h =>
      simp only [List.map_cons, ocrF_page a h hf]
      exact ih.cons₂ a.1

theorem enum1_fst_ge : ∀ (ps : List Page) (n : Nat) (pp : Nat × Page),
    pp ∈ enum1 n ps → n ≤ pp.1 := by
  intro ps
  induction ps with
  | nil => intro n pp h; exact absurd h (List.not_mem_nil pp)
  | cons p t ih =>
    intro n pp h
    rcases List.mem_cons.mp h with rfl | h2
    · exact le_refl n
    · exact le_trans (Nat.le_succ n) (ih (n + 1) pp h2)

theorem enum1_fst_nodup : ∀ (ps : List Page) (n : Nat),
    ((enum1 n ps).map Prod.fst).Nodup := by
  intro ps
  induction ps with
  | nil => intro n; simp [enum1]
  | cons p t ih =>
    intro n
    simp only [enum1, List.map_cons]
    refine List.nodup_cons.mpr ⟨?_, ih (n + 1)⟩
    intro hmem
    obtain ⟨pp, hpp, hfst⟩ := List.mem_map.mp hmem
    have := enum1_fst_ge t (n + 1) pp hpp
    omega

theorem nodup_filter_page :
    ∀ (l : List Heading), (l.map Heading.page).Nodup →
      ∀ pno, (l.filter (fun h => decide (h.page = pno))).length ≤ 1 := by
  intro l
  induction l with
  | nil => intro _ pno; simp
  | cons h t ih =>
    intro hnd pno
    rw [List.map_cons] at hnd
    have hnd2 : h.page ∉ t.map Heading.page ∧ (t.map Heading.page).Nodup :=
      List.nodup_cons.mp hnd
    rw [List.filter_cons]
    split
    · rename_i hpage
      have hpg : h.page = pno := by simpa using hpage
      have hnil : t.filter (fun x => decide (x.page = pno)) = [] := by
        rw [List.filter_eq_nil_iff]
        intro x hx
        simp only [decide_eq_true_eq]
        intro hxpg
        apply hnd2.1
        rw [← hpg, ← hxpg] at *
        exact List.mem_map_of_mem Heading.page hx
      rw [hnil]
      simp
    · exact le_trans (ih hnd2.2 pno) (le_refl 1)

/-- Claim C8: the OCR fallback contributes only when the first pass found no
headings (otherwise the first pass is the final answer); each heading it
emits is an H1 on a page whose text layer is empty, carrying the first line
of the stripped OCR output, nonempty and not boilerplate; and it emits at
most one heading per page number. -/
theorem C8_theorem (doc : Doc) :
    (detect_headings doc (compute_body_font_size doc) ≠ [] →
      finalHeadings doc = detect_headings doc (compute_body_font_size doc)) ∧
    (detect_headings doc (compute_body_font_size doc) = [] →
      finalHeadings doc = ocrFallback doc) ∧
    (∀ pno, ((ocrFallback doc).filter (fun h => decide (h.page = pno))).length ≤ 1) ∧
    (∀ h ∈ ocrFallback doc, h.level = Level.H1 ∧
      ∃ p, (h.page, p) ∈ enum1 1 doc.pages ∧ sTrim p.textLayer = "" ∧
        h.text = firstLine (sTrim p.ocrText) ∧ h.text ≠ "" ∧
        is_boilerplate h.text = false) := by
  refine ⟨?_, ?_, ?_, ?_⟩
  · intro h
    simp [finalHeadings, h]
  · intro h
    simp [finalHeadings, h]
  · intro pno
    have hnd : ((ocrFallback doc).map Heading.page).Nodup :=
      (ocr_pages_sublist (enum1 1 doc.pages)).nodup (enum1_fst_nodup doc.pages 1)
    exact nodup_filter_page (ocrFallback doc) hnd pno
  · intro h hmem
    obtain ⟨pp, hpp, hf⟩ := List.mem_filterMap.mp hmem
    obtain ⟨hlvl, hlayer, htext, hne, hboil⟩ := ocrF_spec pp h hf
    refine ⟨hlvl, pp.2, ?_, hlayer, htext, hne, hboil⟩
    rw [ocrF_page pp h hf]
    exact hpp

theorem C8_witness :
    finalHeadings c8wdoc = detect_headings c8wdoc (compute_body_font_size c8wdoc) :=
  (C8_theorem c8wdoc).1 (by decide)

end OutlineExtractor
